import Mathlib

/-!
Verification of the `create_csv_from_response` extractor from `src/app.py`.

The Python function is embedded shallowly over `List Char`:

```python
def create_csv_from_response(response_text):
    lines = response_text.strip().split('\n')
    csv_lines = []
    in_csv = False
    for line in lines:
        line = line.strip()
        if ',' in line and not line.startswith('|') and not line.startswith('```'):
            in_csv = True
            csv_lines.append(line)
        elif line.startswith('```csv'):
            in_csv = True
            continue
        elif line.startswith('```') and in_csv:
            in_csv = False
            continue
        elif in_csv and line:
            csv_lines.append(line)
    if csv_lines:
        for line in csv_lines:
            output.write(line + '\n')
    else:
        output.write(response_text)
    return output.getvalue()
```
-/

namespace AwsChecklist

/-- The whitespace characters removed by Python `str.strip()`
(ASCII range: space, tab, newline, carriage return, vertical tab, form feed). -/
def isPyWs (c : Char) : Bool :=
  c == ' ' || c == '\t' || c == '\n' || c == '\r' || c == Char.ofNat 11 || c == Char.ofNat 12

/-- Python `str.strip()`: remove leading and trailing whitespace. -/
def pyStrip (l : List Char) : List Char :=
  ((l.dropWhile isPyWs).reverse.dropWhile isPyWs).reverse

/-- Python `str.split(sep)` for a single-character separator: e.g.
`"a\nb"` gives `["a", "b"]`, `""` gives `[""]`, `"a\n"` gives `["a", ""]`. -/
def pySplit (sep : Char) : List Char → List (List Char)
  | [] => [[]]
  | c :: rest =>
    match pySplit sep rest with
    | [] => [[]]
    | chunk :: rs => if c == sep then [] :: chunk :: rs else (c :: chunk) :: rs

/-- The markdown code-fence marker, as tested by `line.startswith('```')`. -/
def fence : List Char := "```".toList

/-- The csv-tagged opening fence, as tested by `line.startswith('```csv')`. -/
def fenceCsv : List Char := "```csv".toList

/-- The markdown table-pipe marker, as tested by `line.startswith('|')`. -/
def pipeTok : List Char := "|".toList

/-- The guard of the first branch:
`',' in line and not line.startswith('|') and not line.startswith('```')`. -/
def isCsvLine (line : List Char) : Bool :=
  line.contains ',' && !(pipeTok.isPrefixOf line) && !(fence.isPrefixOf line)

/-- One iteration of the `for line in lines` loop.  The state is the pair
`(csv_lines, in_csv)`; the body first rebinds `line = line.strip()` and then
runs the `if`/`elif` chain of `create_csv_from_response`. -/
def extractStep (acc : List (List Char) × Bool) (rawLine : List Char) :
    List (List Char) × Bool :=
  if isCsvLine (pyStrip rawLine) then
    (acc.1 ++ [pyStrip rawLine], true)
  else if fenceCsv.isPrefixOf (pyStrip rawLine) then
    (acc.1, true)
  else if fence.isPrefixOf (pyStrip rawLine) && acc.2 then
    (acc.1, false)
  else if acc.2 && !(pyStrip rawLine).isEmpty then
    (acc.1 ++ [pyStrip rawLine], acc.2)
  else
    acc

/-- `response_text.strip().split('\n')`: the lines the loop iterates over. -/
def linesOf (text : List Char) : List (List Char) :=
  pySplit '\n' (pyStrip text)

/-- The final value of `csv_lines` after the loop. -/
def emittedLines (text : List Char) : List (List Char) :=
  ((linesOf text).foldl extractStep ([], false)).1

/-- The emission loop `for line in csv_lines: output.write(line + '\n')`. -/
def writeAll (ls : List (List Char)) : List Char :=
  ls.foldr (fun l acc => l ++ '\n' :: acc) []

/-- `create_csv_from_response` from `src/app.py`: emit the collected
`csv_lines`, each terminated by a newline, or fall back to the original
input when no line was collected. -/
def create_csv_from_response (response_text : List Char) : List Char :=
  if emittedLines response_text = [] then response_text
  else writeAll (emittedLines response_text)

/-- A list is in stripped form: its first and last characters (when present)
are not Python whitespace. -/
def strippedOK (l : List Char) : Prop :=
  (∀ a, l.head? = some a → isPyWs a = false) ∧
  (∀ a, l.getLast? = some a → isPyWs a = false)

/-- Join lines with newline separators (no terminating newline). -/
def joinNl : List (List Char) → List Char
  | [] => []
  | [l] => l
  | l :: ls => l ++ '\n' :: joinNl ls

/-! ### Facts about `pyStrip` -/

theorem dropWhile_head? (p : Char → Bool) (l : List Char) :
    ∀ a, (l.dropWhile p).head? = some a → p a = false := by
  induction l with
  | nil => intro a h; simp [List.dropWhile] at h
  | cons b t ih =>
    intro a h
    by_cases hb : p b
    · rw [List.dropWhile_cons_of_pos hb] at h
      exact ih a h
    · rw [List.dropWhile_cons_of_neg hb] at h
      obtain rfl : b = a := by simpa using h
      simpa using hb

theorem dropWhile_eq_self (p : Char → Bool) (l : List Char)
    (h : ∀ a, l.head? = some a → p a = false) : l.dropWhile p = l := by
  cases l with
  | nil => rfl
  | cons b t =>
    have hb : p b = false := h b rfl
    rw [List.dropWhile_cons_of_neg (by simp [hb])]

theorem pyStrip_strippedOK (l : List Char) : strippedOK (pyStrip l) := by
  unfold pyStrip strippedOK
  constructor
  · intro a h
    rw [List.head?_reverse] at h
    rcases hM : ((l.dropWhile isPyWs).reverse.dropWhile isPyWs) with _ | ⟨c, M⟩
    · rw [hM] at h; simp at h
    · have hdec := List.takeWhile_append_dropWhile isPyWs (l.dropWhile isPyWs).reverse
      rw [hM] at hdec h
      have h2 : (l.dropWhile isPyWs).reverse.getLast? = some a := by
        rw [← hdec, List.getLast?_append]
        simp only [List.getLast?_concat, List.getLast?_cons]
        rcases M with _ | ⟨d, M⟩
        · simpa using h
        · simp only [List.getLast?_cons] at h ⊢
          rw [h]; rfl
      rw [List.getLast?_reverse] at h2
      exact dropWhile_head? isPyWs l a h2
  · intro a h
    rw [List.getLast?_reverse] at h
    exact dropWhile_head? isPyWs _ a h

theorem pyStrip_eq_self (l : List Char) (h : strippedOK l) : pyStrip l = l := by
  unfold pyStrip
  rw [dropWhile_eq_self isPyWs l h.1]
  rw [dropWhile_eq_self isPyWs l.reverse (by intro a ha; rw [List.head?_reverse] at ha; exact h.2 a ha)]
  exact List.reverse_reverse l

theorem pyStrip_idem (l : List Char) : pyStrip (pyStrip l) = pyStrip l :=
  pyStrip_eq_self (pyStrip l) (pyStrip_strippedOK l)

theorem mem_of_mem_pyStrip (c : Char) (l : List Char) (h : c ∈ pyStrip l) : c ∈ l := by
  unfold pyStrip at h
  rw [List.mem_reverse] at h
  have h1 : c ∈ (l.dropWhile isPyWs).reverse := by
    have := List.takeWhile_append_dropWhile isPyWs (l.dropWhile isPyWs).reverse
    rw [← this]
    exact List.mem_append_right _ h
  rw [List.mem_reverse] at h1
  have h2 : c ∈ l := by
    have := List.takeWhile_append_dropWhile isPyWs l
    rw [← this]
    exact List.mem_append_right _ h1
  exact h2

/-! ### Facts about `pySplit` and joining lines back -/

theorem pySplit_ne_nil (sep : Char) (l : List Char) : pySplit sep l ≠ [] := by
  cases l with
  | nil => simp [pySplit]
  | cons c rest =>
    rcases h : pySplit sep rest with _ | ⟨chunk, rs⟩
    · simp [pySplit, h]
    · by_cases hc : c == sep <;> simp [pySplit, h, hc]

theorem not_mem_pySplit (sep : Char) (l : List Char) :
    ∀ chunk ∈ pySplit sep l, sep ∉ chunk := by
  induction l with
  | nil =>
    intro chunk h
    simp [pySplit] at h
    subst h; simp
  | cons c rest ih =>
    intro chunk h
    rcases hr : pySplit sep rest with _ | ⟨ch, rs⟩
    · exact absurd hr (pySplit_ne_nil sep rest)
    · by_cases hc : (c == sep) = true
      · simp only [pySplit, hr, hc, if_pos] at h
        rcases List.mem_cons.mp h with rfl | h2
        · simp
        · exact ih chunk (by rw [hr]; exact h2)
      · simp only [pySplit, hr, hc, if_neg, Bool.false_eq_true, not_false_iff] at h
        rcases List.mem_cons.mp h with rfl | h2
        · intro hm
          rcases List.mem_cons.mp hm with rfl | hm2
          · exact hc (by simp)
          · exact ih ch (by rw [hr]; exact List.mem_cons_self ch rs) hm2
        · exact ih chunk (by rw [hr]; exact List.mem_cons_of_mem ch h2)

theorem pySplit_of_not_mem (sep : Char) (l : List Char) (h : sep ∉ l) :
    pySplit sep l = [l] := by
  induction l with
  | nil => rfl
  | cons c rest ih =>
    have hc : ¬((c == sep) = true) := by
      simp only [beq_iff_eq]
      rintro rfl
      exact h (List.mem_cons_self c rest)
    have hrest : sep ∉ rest := fun hm => h (List.mem_cons_of_mem _ hm)
    simp [pySplit, ih hrest, hc]

theorem pySplit_append (sep : Char) (l r : List Char) (h : sep ∉ l) :
    pySplit sep (l ++ sep :: r) = l :: pySplit sep r := by
  induction l with
  | nil =>
    simp only [List.nil_append]
    rcases hr : pySplit sep r with _ | ⟨ch, rs⟩
    · exact absurd hr (pySplit_ne_nil sep r)
    · simp [pySplit, hr]
  | cons c t ih =>
    have hc : ¬((c == sep) = true) := by
      simp only [beq_iff_eq]
      rintro rfl
      exact h (List.mem_cons_self c t)
    have ht : sep ∉ t := fun hm => h (List.mem_cons_of_mem _ hm)
    simp [pySplit, ih ht, hc]

theorem joinNl_cons_cons (l l2 : List Char) (t : List (List Char)) :
    joinNl (l :: l2 :: t) = l ++ '\n' :: joinNl (l2 :: t) := rfl

theorem writeAll_eq (ls : List (List Char)) (h : ls ≠ []) :
    writeAll ls = joinNl ls ++ ['\n'] := by
  induction ls with
  | nil => exact absurd rfl h
  | cons l t ih =>
    cases t with
    | nil => simp [writeAll, joinNl]
    | cons l2 t2 =>
      have : writeAll (l :: l2 :: t2) = l ++ '\n' :: writeAll (l2 :: t2) := rfl
      rw [this, ih (by simp), joinNl_cons_cons]
      simp

theorem pySplit_joinNl (ls : List (List Char)) (hne : ls ≠ [])
    (h : ∀ x ∈ ls, '\n' ∉ x) : pySplit '\n' (joinNl ls) = ls := by
  induction ls with
  | nil => exact absurd rfl hne
  | cons l t ih =>
    cases t with
    | nil => simpa [joinNl] using pySplit_of_not_mem '\n' l (h l (by simp))
    | cons l2 t2 =>
      rw [joinNl_cons_cons, pySplit_append '\n' l _ (h l (by simp)),
        ih (by simp) (fun x hx => h x (List.mem_cons_of_mem _ hx))]

theorem joinNl_ne_nil (ls : List (List Char)) (hne : ls ≠ [])
    (h : ∀ x ∈ ls, x ≠ []) : joinNl ls ≠ [] := by
  cases ls with
  | nil => exact absurd rfl hne
  | cons l t =>
    cases t with
    | nil => exact h l (by simp)
    | cons l2 t2 => rw [joinNl_cons_cons]; simp

theorem joinNl_head? (l : List Char) (ls : List (List Char)) (hl : l ≠ []) :
    (joinNl (l :: ls)).head? = l.head? := by
  cases ls with
  | nil => rfl
  | cons l2 t2 =>
    rw [joinNl_cons_cons]
    cases l with
    | nil => exact absurd rfl hl
    | cons c cs => rfl

theorem joinNl_getLast? (ls : List (List Char)) (hne : ls ≠ [])
    (h : ∀ x ∈ ls, x ≠ []) : ∃ lk ∈ ls, (joinNl ls).getLast? = lk.getLast? := by
  induction ls with
  | nil => exact absurd rfl hne
  | cons l t ih =>
    cases t with
    | nil => exact ⟨l, by simp, rfl⟩
    | cons l2 t2 =>
      obtain ⟨lk, hmem, hlast⟩ := ih (by simp) (fun x hx => h x (List.mem_cons_of_mem _ hx))
      refine ⟨lk, List.mem_cons_of_mem _ hmem, ?_⟩
      rw [joinNl_cons_cons, List.getLast?_append]
      have hJ : joinNl (l2 :: t2) ≠ [] :=
        joinNl_ne_nil _ (by simp) (fun x hx => h x (List.mem_cons_of_mem _ hx))
      have h1 : ('\n' :: joinNl (l2 :: t2)).getLast? = (joinNl (l2 :: t2)).getLast? := by
        have : '\n' :: joinNl (l2 :: t2) = ['\n'] ++ joinNl (l2 :: t2) := rfl
        rw [this, List.getLast?_append]
        rcases hv : (joinNl (l2 :: t2)).getLast? with _ | v
        · exact absurd (List.getLast?_eq_none_iff.mp hv) hJ
        · rfl
      rw [h1, hlast]
      rcases hv : lk.getLast? with _ | v
      · exact absurd (List.getLast?_eq_none_iff.mp hv) (h lk (List.mem_cons_of_mem _ hmem))
      · rfl

theorem strippedOK_joinNl (ls : List (List Char)) (hne : ls ≠ [])
    (h : ∀ x ∈ ls, pyStrip x = x ∧ x ≠ []) : strippedOK (joinNl ls) := by
  constructor
  · intro a ha
    cases ls with
    | nil => exact absurd rfl hne
    | cons l t =>
      rw [joinNl_head? l t (h l (by simp)).2] at ha
      have hs := pyStrip_strippedOK l
      rw [(h l (by simp)).1] at hs
      exact hs.1 a ha
  · intro a ha
    obtain ⟨lk, hmem, hlast⟩ := joinNl_getLast? ls hne (fun x hx => (h x hx).2)
    rw [hlast] at ha
    have hs := pyStrip_strippedOK lk
    rw [(h lk hmem).1] at hs
    exact hs.2 a ha

theorem pyStrip_append_newline (X : List Char) (hX : X ≠ []) (h : strippedOK X) :
    pyStrip (X ++ ['\n']) = X := by
  unfold pyStrip
  have h1 : (X ++ ['\n']).dropWhile isPyWs = X ++ ['\n'] := by
    refine dropWhile_eq_self _ _ ?_
    intro a ha
    cases X with
    | nil => exact absurd rfl hX
    | cons c t =>
      have hca : c = a := by simpa using ha
      exact hca ▸ h.1 c rfl
  rw [h1, List.reverse_append]
  have h2 : (['\n'].reverse ++ X.reverse) = '\n' :: X.reverse := by simp
  rw [h2, List.dropWhile_cons_of_pos (by decide)]
  rw [dropWhile_eq_self isPyWs X.reverse (by
    intro a ha
    rw [List.head?_reverse] at ha
    exact h.2 a ha)]
  exact List.reverse_reverse X

theorem linesOf_writeAll (ls : List (List Char)) (hne : ls ≠ [])
    (h : ∀ x ∈ ls, pyStrip x = x ∧ x ≠ [] ∧ '\n' ∉ x) :
    linesOf (writeAll ls) = ls := by
  unfold linesOf
  rw [writeAll_eq ls hne,
    pyStrip_append_newline _ (joinNl_ne_nil ls hne fun x hx => (h x hx).2.1)
      (strippedOK_joinNl ls hne fun x hx => ⟨(h x hx).1, (h x hx).2.1⟩)]
  exact pySplit_joinNl ls hne (fun x hx => (h x hx).2.2)

/-! ### Facts about the loop body and the fold -/

theorem extractStep_fst (acc : List (List Char) × Bool) (l : List Char) :
    (extractStep acc l).1 = acc.1 ∨ (extractStep acc l).1 = acc.1 ++ [pyStrip l] := by
  unfold extractStep
  split_ifs <;> simp

theorem extractStep_csv (acc : List (List Char) × Bool) (l : List Char)
    (h : isCsvLine (pyStrip l) = true) :
    extractStep acc l = (acc.1 ++ [pyStrip l], true) := by
  unfold extractStep
  simp [h]

theorem foldl_fst_decomp (ls : List (List Char)) :
    ∀ acc : List (List Char) × Bool, ∃ rest,
      (ls.foldl extractStep acc).1 = acc.1 ++ rest ∧ rest.Sublist (ls.map pyStrip) := by
  induction ls with
  | nil => exact fun acc => ⟨[], by simp, List.Sublist.slnil⟩
  | cons l t ih =>
    intro acc
    obtain ⟨rest, h1, h2⟩ := ih (extractStep acc l)
    rw [List.foldl_cons]
    rcases extractStep_fst acc l with h | h
    · exact ⟨rest, by rw [h1, h], List.Sublist.cons _ h2⟩
    · refine ⟨pyStrip l :: rest, by rw [h1, h]; simp, ?_⟩
      rw [List.map_cons]
      exact List.Sublist.cons₂ _ h2

theorem mem_foldl_of_mem_acc (ls : List (List Char)) (acc : List (List Char) × Bool)
    (x : List Char) (h : x ∈ acc.1) : x ∈ (ls.foldl extractStep acc).1 := by
  obtain ⟨rest, h1, _⟩ := foldl_fst_decomp ls acc
  rw [h1]
  exact List.mem_append_left _ h

theorem mem_foldl_of_csv (ls : List (List Char)) :
    ∀ acc : List (List Char) × Bool, ∀ l ∈ ls, isCsvLine (pyStrip l) = true →
      pyStrip l ∈ (ls.foldl extractStep acc).1 := by
  induction ls with
  | nil => intro acc l h; simp at h
  | cons a t ih =>
    intro acc l hl hcsv
    rw [List.foldl_cons]
    rcases List.mem_cons.mp hl with rfl | h2
    · apply mem_foldl_of_mem_acc
      rw [extractStep_csv acc l hcsv]
      simp
    · exact ih (extractStep acc a) l h2 hcsv

theorem isCsvLine_ne_nil (l : List Char) (h : isCsvLine l = true) : l ≠ [] := by
  rintro rfl
  simp [isCsvLine, List.contains] at h

theorem isCsvLine_no_fence (l : List Char) (h : isCsvLine l = true) :
    fence.isPrefixOf l = false := by
  unfold isCsvLine at h
  simp only [Bool.and_eq_true, Bool.not_eq_true'] at h
  exact h.2

/-- Every line the loop appends to `csv_lines` is a stripped, non-empty,
newline-free line that does not start with a fence marker. -/
theorem extractStep_good (acc : List (List Char) × Bool) (l : List Char)
    (hnl : '\n' ∉ l) :
    (extractStep acc l).1 = acc.1 ∨
    ((extractStep acc l).1 = acc.1 ++ [pyStrip l] ∧
      pyStrip (pyStrip l) = pyStrip l ∧ pyStrip l ≠ [] ∧
      fence.isPrefixOf (pyStrip l) = false ∧ '\n' ∉ pyStrip l) := by
  unfold extractStep
  split_ifs with h1 h2 h3 h4
  · right
    exact ⟨by simp, pyStrip_idem l, isCsvLine_ne_nil _ h1, isCsvLine_no_fence _ h1,
      fun hm => hnl (mem_of_mem_pyStrip _ _ hm)⟩
  · left; simp
  · left; simp
  · right
    simp only [Bool.and_eq_true, Bool.not_eq_true'] at h4
    have hne : pyStrip l ≠ [] := by
      intro heq
      rw [heq] at h4
      simp at h4
    refine ⟨by simp, pyStrip_idem l, hne, ?_, fun hm => hnl (mem_of_mem_pyStrip _ _ hm)⟩
    rcases hf : fence.isPrefixOf (pyStrip l) with _ | _
    · rfl
    · exact absurd (by rw [hf, h4.1]; rfl) h3
  · left; simp

theorem foldl_good (ls : List (List Char)) :
    ∀ acc : List (List Char) × Bool,
      (∀ l ∈ ls, '\n' ∉ l) →
      (∀ x ∈ acc.1, pyStrip x = x ∧ x ≠ [] ∧ fence.isPrefixOf x = false ∧ '\n' ∉ x) →
      ∀ x ∈ (ls.foldl extractStep acc).1,
        pyStrip x = x ∧ x ≠ [] ∧ fence.isPrefixOf x = false ∧ '\n' ∉ x := by
  induction ls with
  | nil => intro acc _ hacc x hx; exact hacc x hx
  | cons l t ih =>
    intro acc hnl hacc x hx
    rw [List.foldl_cons] at hx
    refine ih (extractStep acc l) (fun y hy => hnl y (List.mem_cons_of_mem _ hy)) ?_ x hx
    intro y hy
    rcases extractStep_good acc l (hnl l (List.mem_cons_self l t)) with h | ⟨h, hid, hne, hf, hn⟩
    · exact hacc y (h ▸ hy)
    · rw [h] at hy
      rcases List.mem_append.mp hy with hy1 | hy2
      · exact hacc y hy1
      · have : y = pyStrip l := by simpa using hy2
        subst this
        exact ⟨hid, hne, hf, hn⟩

/-- The collected `csv_lines` are stripped, non-empty, newline-free, and
fence-free. -/
theorem emittedLines_good (text : List Char) :
    ∀ x ∈ emittedLines text,
      pyStrip x = x ∧ x ≠ [] ∧ fence.isPrefixOf x = false ∧ '\n' ∉ x := by
  unfold emittedLines
  intro x hx
  refine foldl_good (linesOf text) ([], false) ?_ (by simp) x hx
  intro l hl
  exact not_mem_pySplit '\n' (pyStrip text) l hl

/-- When at least one line was collected, the lines of the final output are
exactly the collected `csv_lines`. -/
theorem linesOf_output (text : List Char) (h : emittedLines text ≠ []) :
    linesOf (create_csv_from_response text) = emittedLines text := by
  unfold create_csv_from_response
  rw [if_neg h]
  exact linesOf_writeAll _ h (fun x hx => by
    obtain ⟨h1, h2, _, h4⟩ := emittedLines_good text x hx
    exact ⟨h1, h2, h4⟩)

/-! ### Prefix tests -/

theorem fence_of_fenceCsv (l : List Char) (h : fenceCsv.isPrefixOf l = true) :
    fence.isPrefixOf l = true := by
  rw [ List.isPrefixOf_iff_prefix] at h ⊢
  exact List.IsPrefix.trans (by decide) h

theorem prefix_head_eq (p l : List Char) (h : p.isPrefixOf l = true) :
    p = [] ∨ p.head? = l.head? := by
  rw [ List.isPrefixOf_iff_prefix] at h
  cases p with
  | nil => exact Or.inl rfl
  | cons a tp =>
    cases l with
    | nil => exact absurd (List.eq_nil_of_prefix_nil h) (by simp)
    | cons b t =>
      right
      rw [List.cons_prefix_cons] at h
      rw [h.1]
      rfl

theorem pipe_shape (l : List Char) (h : pipeTok.isPrefixOf l = true) :
    ∃ t, l = '|' :: t := by
  rcases prefix_head_eq pipeTok l h with h1 | h1
  · exact absurd h1 (by decide)
  · cases l with
    | nil =>
      rw [ List.isPrefixOf_iff_prefix] at h
      exact absurd (List.eq_nil_of_prefix_nil h) (by decide)
    | cons c t =>
      have hc : c = '|' := by
        have : pipeTok.head? = some c := h1
        simpa [pipeTok] using this.symm
      exact ⟨t, by rw [hc]⟩

theorem fence_not_prefix_of_pipe (l : List Char) (h : pipeTok.isPrefixOf l = true) :
    fence.isPrefixOf l = false := by
  obtain ⟨t, rfl⟩ := pipe_shape l h
  rcases hf : fence.isPrefixOf ('|' :: t) with _ | _
  · rfl
  · rcases prefix_head_eq fence _ hf with h1 | h1
    · exact absurd h1 (by decide)
    · have h2 : fence.head? = some '|' := h1
      exact absurd h2 (by decide)

theorem fenceCsv_not_prefix_of_pipe (l : List Char) (h : pipeTok.isPrefixOf l = true) :
    fenceCsv.isPrefixOf l = false := by
  rcases hf : fenceCsv.isPrefixOf l with _ | _
  · rfl
  · have h2 := fence_of_fenceCsv l hf
    rw [fence_not_prefix_of_pipe l h] at h2
    exact absurd h2 (by decide)

/-! ### Emission facts used by several claims -/

theorem infix_writeAll (x : List Char) (ls : List (List Char)) (h : x ∈ ls) :
    List.IsInfix (x ++ ['\n']) (writeAll ls) := by
  induction ls with
  | nil => simp at h
  | cons l t ih =>
    have hw : writeAll (l :: t) = (l ++ ['\n']) ++ writeAll t := by
      show l ++ '\n' :: writeAll t = _
      simp
    rcases List.mem_cons.mp h with rfl | h2
    · exact ⟨[], writeAll t, by rw [hw]; simp⟩
    · obtain ⟨s, t', hst⟩ := ih h2
      exact ⟨(l ++ ['\n']) ++ s, t', by rw [hw, ← hst]; simp⟩

theorem foldl_all_csv (ls : List (List Char)) :
    ∀ acc : List (List Char) × Bool, (∀ l ∈ ls, isCsvLine (pyStrip l) = true) →
      (ls.foldl extractStep acc).1 = acc.1 ++ ls.map pyStrip := by
  induction ls with
  | nil => intro acc _; simp
  | cons l t ih =>
    intro acc h
    rw [List.foldl_cons, extractStep_csv acc l (h l (List.mem_cons_self l t)),
      ih _ (fun y hy => h y (List.mem_cons_of_mem _ hy))]
    simp

theorem output_fallback (u : List Char) (h : emittedLines u = []) :
    create_csv_from_response u = u := by
  unfold create_csv_from_response
  rw [if_pos h]

theorem output_emit (u : List Char) (h : emittedLines u ≠ []) :
    create_csv_from_response u = writeAll (emittedLines u) := by
  unfold create_csv_from_response
  rw [if_neg h]

/-! ### The claims -/

/-- Claim C1: every line whose trimmed form contains at least one comma and
starts with neither a table pipe nor a code fence appears verbatim in the
output (together with its newline terminator it occurs contiguously in the
result), and the collected lines form a subsequence of the trimmed input
lines — so emitted lines keep the relative order of the input, no input line
is emitted more than once, and no emitted line is truncated. -/
theorem c1_csv_lines_verbatim_ordered (text : List Char) :
    (∀ l ∈ linesOf text, isCsvLine (pyStrip l) = true →
      List.IsInfix (pyStrip l ++ ['\n']) (create_csv_from_response text)) ∧
    (emittedLines text).Sublist ((linesOf text).map pyStrip) := by
  constructor
  · intro l hl hcsv
    have hmem : pyStrip l ∈ emittedLines text :=
      mem_foldl_of_csv (linesOf text) ([], false) l hl hcsv
    have hne : emittedLines text ≠ [] := by
      intro hemp
      rw [hemp] at hmem
      simp at hmem
    unfold create_csv_from_response
    rw [if_neg hne]
    exact infix_writeAll _ _ hmem
  · obtain ⟨rest, h1, h2⟩ := foldl_fst_decomp (linesOf text) ([], false)
    unfold emittedLines
    rw [h1]
    simpa using h2

theorem c1_witness :
    ("a,b".toList ∈ linesOf ("hello\na,b".toList)) ∧
    isCsvLine (pyStrip ("a,b".toList)) = true ∧
    List.IsInfix (pyStrip ("a,b".toList) ++ ['\n'])
      (create_csv_from_response ("hello\na,b".toList)) :=
  ⟨by decide, by decide,
    (c1_csv_lines_verbatim_ordered ("hello\na,b".toList)).1 ("a,b".toList)
      (by decide) (by decide)⟩

/-- Claim C2: when the loop collects no line at all, the function falls back
to returning the whole original input unchanged. -/
theorem c2_fallback_identity (text : List Char) (h : emittedLines text = []) :
    create_csv_from_response text = text := by
  unfold create_csv_from_response
  rw [if_pos h]

theorem c2_witness :
    emittedLines ("no commas here at all".toList) = [] ∧
    create_csv_from_response ("no commas here at all".toList) =
      "no commas here at all".toList :=
  ⟨by decide, c2_fallback_identity ("no commas here at all".toList) (by decide)⟩

/-- Claim C3: the extractor is total — it is a plain function on strings
(all the primitives it uses are total, so the `except` branch of the Python
wrapper is unreachable) and for every input it returns a usable result:
either the input itself or the newline-joined collected lines; a non-empty
input never produces an empty result. -/
theorem c3_total_usable (text : List Char) :
    (create_csv_from_response text = text ∨
      create_csv_from_response text = writeAll (emittedLines text)) ∧
    (text ≠ [] → create_csv_from_response text ≠ []) := by
  constructor
  · unfold create_csv_from_response
    split_ifs with h
    · exact Or.inl rfl
    · exact Or.inr rfl
  · intro hne
    unfold create_csv_from_response
    split_ifs with h
    · exact hne
    · cases hem : emittedLines text with
      | nil => exact absurd hem h
      | cons x t =>
        show x ++ '\n' :: writeAll t ≠ []
        simp

theorem c3_witness :
    ("x".toList ≠ ([] : List Char)) ∧ create_csv_from_response ("x".toList) ≠ [] :=
  ⟨by decide, (c3_total_usable ("x".toList)).2 (by decide)⟩

/-- Claim C8: on the empty input the loop iterates over the single empty
line, collects nothing, and the fallback returns the original empty string. -/
theorem c8_empty_input :
    create_csv_from_response ("".toList) = "".toList := by decide

/-- Claim C9: when at least one line is emitted, the output is exactly the
emitted lines, every one of them is non-empty and carries no leading or
trailing whitespace, and the output ends with a newline character even when
the input did not. -/
theorem c9_output_line_shape (text : List Char) (h : emittedLines text ≠ []) :
    (∀ l ∈ linesOf (create_csv_from_response text), l ≠ [] ∧ pyStrip l = l) ∧
    create_csv_from_response text = writeAll (emittedLines text) ∧
    (create_csv_from_response text).getLast? = some '\n' := by
  refine ⟨?_, output_emit text h, ?_⟩
  · intro l hl
    rw [linesOf_output text h] at hl
    obtain ⟨h1, h2, _, _⟩ := emittedLines_good text l hl
    exact ⟨h2, h1⟩
  · rw [output_emit text h, writeAll_eq _ h]
    exact List.getLast?_concat _

theorem c9_witness :
    emittedLines ("a,b".toList) ≠ [] ∧
    (create_csv_from_response ("a,b".toList)).getLast? = some '\n' :=
  ⟨by decide, (c9_output_line_shape ("a,b".toList) (by decide)).2.2⟩

/-- Claim C10: a line whose trimmed form is non-empty and starts with a table
pipe, processed while the inside flag is true, is appended verbatim to the
collected lines — pipe-prefixed markdown rows inside a recognized block are
not filtered out. -/
theorem c10_pipe_inside_emitted (a : List (List Char)) (l : List Char)
    (hne : pyStrip l ≠ []) (hp : pipeTok.isPrefixOf (pyStrip l) = true) :
    extractStep (a, true) l = (a ++ [pyStrip l], true) := by
  have hcsv : isCsvLine (pyStrip l) = false := by
    unfold isCsvLine
    rw [hp]
    simp
  have hemp : (pyStrip l).isEmpty = false := by
    rcases he : (pyStrip l).isEmpty with _ | _
    · rfl
    · exact absurd (List.isEmpty_iff.mp he) hne
  simp [extractStep, hcsv, fenceCsv_not_prefix_of_pipe _ hp,
    fence_not_prefix_of_pipe _ hp, hemp]

theorem c10_witness :
    pyStrip ("|x,y|".toList) ≠ [] ∧
    extractStep ([], true) ("|x,y|".toList) = ([] ++ [pyStrip ("|x,y|".toList)], true) :=
  ⟨by decide, c10_pipe_inside_emitted [] ("|x,y|".toList) (by decide) (by decide)⟩

/-- Claim C4 fails as stated: the extraction result of the input
`"```csv\n|a,b|\nc,d\n```"` is `"|a,b|\nc,d\n"` — every line of that result
contains a comma and no fence marker is present — yet a second application of
the extractor drops the pipe-prefixed first row and returns `"c,d\n"`. -/
theorem c4_counterexample :
    (∀ l ∈ linesOf (create_csv_from_response ("```csv\n|a,b|\nc,d\n```".toList)),
      (pyStrip l).contains ',' = true ∧ fence.isPrefixOf (pyStrip l) = false) ∧
    create_csv_from_response (create_csv_from_response ("```csv\n|a,b|\nc,d\n```".toList)) ≠
      create_csv_from_response ("```csv\n|a,b|\nc,d\n```".toList) := by decide

/-- Claim C4 (amended): the extractor is idempotent on any output all of whose
trimmed lines contain a comma and start with neither a table pipe nor a code
fence; compared with the claim, the no-table-pipe condition has to be added,
because a pipe-prefixed row emitted from inside a fenced block is dropped by a
second pass. -/
theorem c4_idempotent_amended (text : List Char)
    (h : ∀ l ∈ linesOf (create_csv_from_response text), isCsvLine (pyStrip l) = true) :
    create_csv_from_response (create_csv_from_response text) =
      create_csv_from_response text := by
  by_cases hemp : emittedLines text = []
  · rw [output_fallback text hemp] at h ⊢
    rcases hl : linesOf text with _ | ⟨l0, rest⟩
    · exact absurd hl (pySplit_ne_nil '\n' (pyStrip text))
    · have hmem : l0 ∈ linesOf text := by
        rw [hl]
        exact List.mem_cons_self _ _
      have hmem2 : pyStrip l0 ∈ emittedLines text :=
        mem_foldl_of_csv (linesOf text) ([], false) l0 hmem (h l0 hmem)
      rw [hemp] at hmem2
      simp at hmem2
  · have hlines : linesOf (create_csv_from_response text) = emittedLines text :=
      linesOf_output text hemp
    have hall : ∀ l ∈ emittedLines text, isCsvLine (pyStrip l) = true := by
      intro l hlmem
      exact h l (by rw [hlines]; exact hlmem)
    have hemit2 : emittedLines (create_csv_from_response text) = emittedLines text := by
      unfold emittedLines
      rw [hlines, foldl_all_csv _ _ hall]
      have hmapid : (emittedLines text).map pyStrip = (emittedLines text).map id :=
        List.map_congr_left fun x hx => (emittedLines_good text x hx).1
      rw [hmapid, List.map_id]
      rfl
    calc create_csv_from_response (create_csv_from_response text)
        = writeAll (emittedLines (create_csv_from_response text)) :=
          output_emit _ (by rw [hemit2]; exact hemp)
      _ = writeAll (emittedLines text) := by rw [hemit2]
      _ = create_csv_from_response text := (output_emit text hemp).symm

theorem c4_witness :
    (∀ l ∈ linesOf (create_csv_from_response ("p,q\nr,s".toList)),
      isCsvLine (pyStrip l) = true) ∧
    create_csv_from_response (create_csv_from_response ("p,q\nr,s".toList)) =
      create_csv_from_response ("p,q\nr,s".toList) :=
  ⟨by decide, c4_idempotent_amended ("p,q\nr,s".toList) (by decide)⟩

/-- Claim C5 fails as stated: when nothing is emitted, the fallback returns
the raw input, which can contain fence marker lines — on the input consisting
of the single line `"```csv"` the output is that very fence line. -/
theorem c5_counterexample :
    create_csv_from_response ("```csv".toList) = "```csv".toList ∧
    fenceCsv.isPrefixOf ("```csv".toList) = true := by decide

/-- Claim C5 (amended): whenever at least one line is emitted, the output
consists exactly of the emitted lines and none of them starts with a fence
marker; fence lines can survive only through the nothing-emitted fallback
that returns the raw input unchanged. -/
theorem c5_no_fence_amended (text : List Char) (h : emittedLines text ≠ []) :
    (∀ l ∈ linesOf (create_csv_from_response text), fence.isPrefixOf l = false) ∧
    create_csv_from_response text = writeAll (emittedLines text) := by
  refine ⟨?_, output_emit text h⟩
  intro l hl
  rw [linesOf_output text h] at hl
  exact (emittedLines_good text l hl).2.2.1

theorem c5_witness :
    emittedLines ("```csv\nA,B\n```".toList) ≠ [] ∧
    ∀ l ∈ linesOf (create_csv_from_response ("```csv\nA,B\n```".toList)),
      fence.isPrefixOf l = false :=
  ⟨by decide, (c5_no_fence_amended ("```csv\nA,B\n```".toList) (by decide)).1⟩

/-- Claim C6 fails as stated: a pipe-prefixed line outside any recognized CSV
block can still reach the output through the nothing-emitted fallback — on
the single-line input `"|a|"` nothing is emitted and the output is the pipe
line itself. -/
theorem c6_counterexample :
    create_csv_from_response ("|a|".toList) = "|a|".toList ∧
    pipeTok.isPrefixOf (pyStrip ("|a|".toList)) = true ∧
    emittedLines ("|a|".toList) = [] := by decide

/-- Claim C6 (amended): a table-pipe-prefixed line processed while the inside
flag is false is discarded — it contributes nothing to the collected lines
and leaves the state unchanged; such a line can appear in the output only via
the nothing-emitted fallback that returns the raw input. -/
theorem c6_pipe_outside_discarded_amended (a : List (List Char)) (l : List Char)
    (hp : pipeTok.isPrefixOf (pyStrip l) = true) :
    extractStep (a, false) l = (a, false) := by
  have hcsv : isCsvLine (pyStrip l) = false := by
    unfold isCsvLine
    rw [hp]
    simp
  simp [extractStep, hcsv, fenceCsv_not_prefix_of_pipe _ hp,
    fence_not_prefix_of_pipe _ hp]

theorem c6_witness :
    pipeTok.isPrefixOf (pyStrip ("|a,b|".toList)) = true ∧
    extractStep ([], false) ("|a,b|".toList) = ([], false) :=
  ⟨by decide, c6_pipe_outside_discarded_amended [] ("|a,b|".toList) (by decide)⟩

/-- Claim C7 fails as stated: the closing-fence test is a prefix test, not an
exact match on the bare fence marker — while the inside flag is true, the
line `"```python"` clears the flag and emits nothing although its trimmed
form is not the bare fence marker. -/
theorem c7_counterexample :
    extractStep ([], true) ("```python".toList) = ([], false) ∧
    pyStrip ("```python".toList) ≠ fence := by decide

/-- Claim C7 (amended): from the outside state, a line sets the inside flag
while emitting nothing exactly when its trimmed form starts with the
csv-tagged opening fence; from the inside state, a line clears the flag while
emitting nothing exactly when its trimmed form starts with the fence marker
but not with the csv-tagged opening fence.  Both tests are prefix tests, so
trailing text after the markers is accepted. -/
theorem c7_fence_transitions_amended (a : List (List Char)) (l : List Char) :
    (extractStep (a, false) l = (a, true) ↔
      fenceCsv.isPrefixOf (pyStrip l) = true) ∧
    (extractStep (a, true) l = (a, false) ↔
      (fence.isPrefixOf (pyStrip l) = true ∧
        fenceCsv.isPrefixOf (pyStrip l) = false)) := by
  constructor
  · constructor
    · intro h
      unfold extractStep at h
      split_ifs at h with h1 h2 h3 h4
      · have hlen := congrArg (fun p => p.1.length) h
        simp at hlen
      · exact h2
      · exact Bool.noConfusion (congrArg Prod.snd h)
      · exact Bool.noConfusion (congrArg Prod.snd h)
      · exact Bool.noConfusion (congrArg Prod.snd h)
    · intro h2
      have h1 : isCsvLine (pyStrip l) = false := by
        unfold isCsvLine
        rw [fence_of_fenceCsv _ h2]
        simp
      simp [extractStep, h1, h2]
  · constructor
    · intro h
      unfold extractStep at h
      split_ifs at h with h1 h2 h3 h4
      · exact Bool.noConfusion (congrArg Prod.snd h)
      · exact Bool.noConfusion (congrArg Prod.snd h)
      · refine ⟨?_, Bool.eq_false_iff.mpr h2⟩
        simpa using h3
      · exact Bool.noConfusion (congrArg Prod.snd h)
      · exact Bool.noConfusion (congrArg Prod.snd h)
    · rintro ⟨hf, hfc⟩
      have h1 : isCsvLine (pyStrip l) = false := by
        unfold isCsvLine
        rw [hf]
        simp
      simp [extractStep, h1, hfc, hf]

/-! ### The worked examples of the specification, checked by evaluation -/

/-- Spec example 1: an already clean CSV input passes through unchanged. -/
theorem spec_example_clean_csv :
    create_csv_from_response ("Service,Item\nEC2,Setup\n".toList) =
      "Service,Item\nEC2,Setup\n".toList := by decide

/-- Spec example 2: a fenced CSV block surrounded by prose is unwrapped. -/
theorem spec_example_fenced_block :
    create_csv_from_response ("Here is the data:\n```csv\nA,B\n1,2\n```\nThanks".toList) =
      "A,B\n1,2\n".toList := by decide

/-- Spec example 3: an input with no commas is returned unchanged. -/
theorem spec_example_no_commas :
    create_csv_from_response ("no commas here at all".toList) =
      "no commas here at all".toList := by decide

/-- Spec example 4: pipe-table lines outside any block are discarded while
comma lines are kept. -/
theorem spec_example_pipe_table :
    create_csv_from_response ("| A | B |\n|---|---|\nA,B\n1,2".toList) =
      "A,B\n1,2\n".toList := by decide

end AwsChecklist
